import Mathlib

set_option maxRecDepth 100000

/-!
Shallow embedding of `src/wrappers/Jetton.ts` (DrewPackages/minter-contract).

The repository encodes token metadata and protocol messages into TON-style
cell trees.  Cells are immutable nodes holding a bit payload plus child
references; the `@ton/core` builder primitives (append bits, append a typed
field, attach a child, finalize) are the external library the spec treats as
given, and are modelled here by pure functions on an explicit `Builder`
state.  Bytes are `Nat` below 256; strings that the source turns into byte
buffers (via `Buffer.from`) are modelled directly as their byte lists.
-/

namespace MinterContract

/-- A TON cell: an ordered bit payload plus an ordered list of child cells.
Mirrors the immutable `Cell` of `@ton/core` at the level of abstraction the
spec uses (≤1023 bits, ≤4 refs are checked as properties, not baked in). -/
inductive Cell : Type where
  | mk : List Bool → List Cell → Cell

/-- Bit payload of a cell. -/
def Cell.bits : Cell → List Bool
  | .mk b _ => b

/-- Child references of a cell. -/
def Cell.refs : Cell → List Cell
  | .mk _ r => r

/-- Big-endian bit pattern of `n` in `w` bits (the value stored is `n % 2^w`,
as the underlying bit-writer keeps only the low `w` bits). -/
def natToBits : Nat → Nat → List Bool
  | _, 0 => []
  | n, w + 1 => natToBits (n / 2) w ++ [n % 2 == 1]

/-- Read back a big-endian bit list as a natural number. -/
def bitsToNat (bs : List Bool) : Nat :=
  bs.foldl (fun acc b => 2 * acc + (if b then 1 else 0)) 0

/-- A byte list as a bit stream, 8 bits per byte, big-endian within a byte.
This is how `Builder.storeBuffer` lays bytes out. -/
def bytesToBits (v : List Nat) : List Bool :=
  (v.map (fun b => natToBits b 8)).flatten

/-- Regroup a bit stream into bytes of 8 bits (decoder side of C1). -/
def bitsToBytes (bs : List Bool) : List Nat :=
  if bs.isEmpty then []
  else bitsToNat (bs.take 8) :: bitsToBytes (bs.drop 8)
termination_by bs.length
decreasing_by
  simp only [List.length_drop]
  have hne : bs ≠ [] := by
    intro e
    simp [e] at *
  have : 0 < bs.length := List.length_pos.mpr hne
  omega

/-- `CELL_MAX_SIZE_BYTES` from `buildTokenMetadataCell`:
`Math.floor((1023 - 8) / 8) = 126` payload bytes per cell. -/
def CELL_MAX_SIZE_BYTES : Nat := (1023 - 8) / 8

/-- `SNAKE_PREFIX` from the source (named `SNAKE_PFX` here): the 1-byte
format tag stored at the head of the root snake cell. -/
def SNAKE_PFX : Nat := 0x00

/-- `ONCHAIN_CONTENT_PREFIX` from the source (named `ONCHAIN_CONTENT_PFX`
here): the signed 8-bit content tag of the metadata root cell. -/
def ONCHAIN_CONTENT_PFX : Int := 0x00

/-- Final contents of the snake loop's successive non-root *builders*:
builder i accumulates one chunk of up to `CELL_MAX_SIZE_BYTES` bytes and,
when bytes remain, one child reference.  Linked here in chunk order, this is
the per-builder view of the loop (what each builder holds when the loop
ends, which the capacity property C9 measures) and the chain the snake
format intends; the tree the program actually finalizes differs — see
`buildSnakeCellActual`. -/
def snakeTail (buf : List Nat) : Cell :=
  if (buf.drop CELL_MAX_SIZE_BYTES).isEmpty then
    Cell.mk (bytesToBits (buf.take CELL_MAX_SIZE_BYTES)) []
  else
    Cell.mk (bytesToBits (buf.take CELL_MAX_SIZE_BYTES))
      [snakeTail (buf.drop CELL_MAX_SIZE_BYTES)]
termination_by buf.length
decreasing_by
  rename_i h
  rw [List.isEmpty_iff] at h
  have h1 : 0 < (buf.drop CELL_MAX_SIZE_BYTES).length := List.length_pos.mpr h
  have h2 : CELL_MAX_SIZE_BYTES = 126 := rfl
  simp only [List.length_drop] at *
  omega

/-- Final contents of the snake loop's root builder — the 8-bit
`SNAKE_PREFIX` tag, the first chunk, and one child reference when more data
follows — with the later builders linked in chunk order (per-builder view,
see `snakeTail`).  The cell tree the program actually finalizes is
`buildSnakeCellActual`. -/
def buildSnakeCell (buf : List Nat) : Cell :=
  if (buf.drop CELL_MAX_SIZE_BYTES).isEmpty then
    Cell.mk (natToBits SNAKE_PFX 8 ++ bytesToBits (buf.take CELL_MAX_SIZE_BYTES)) []
  else
    Cell.mk (natToBits SNAKE_PFX 8 ++ bytesToBits (buf.take CELL_MAX_SIZE_BYTES))
      [snakeTail (buf.drop CELL_MAX_SIZE_BYTES)]

/-- The cell the loop actually finalizes under `@ton/core`.  At line 133
`currentCell.storeRef(newCell)` hands `storeRef` a *Builder*, and
`Builder.storeRef` pushes `cell.endCell()` at once — a snapshot of the
still-empty child.  Later chunks are written into builders whose snapshots
were already taken and then discarded, so past the first chunk the finalized
root keeps only an empty child cell and the remaining bytes are lost. -/
def buildSnakeCellActual (buf : List Nat) : Cell :=
  if (buf.drop CELL_MAX_SIZE_BYTES).isEmpty then
    Cell.mk (natToBits SNAKE_PFX 8 ++ bytesToBits (buf.take CELL_MAX_SIZE_BYTES)) []
  else
    Cell.mk (natToBits SNAKE_PFX 8 ++ bytesToBits (buf.take CELL_MAX_SIZE_BYTES))
      [Cell.mk [] []]

/-- Decoder from claim C1: concatenate the payload bits of the chain
root-to-leaf, following the single child reference of each cell. -/
def chainBits : Cell → List Bool
  | .mk bits [] => bits
  | .mk bits (c :: _) => bits ++ chainBits c

/-- A TON address as the source uses it: `workchain` is its 8-bit stored
pattern and `hash` the 256-bit account id (values are reduced mod the field
width by the bit-writer). -/
structure Address where
  workchain : Nat
  hash : Nat

/-- Bits written by `Builder.storeAddress`: `null` is the `addr_none`
sentinel `00`; a standard address is tag `10`, anycast bit `0`, 8-bit
workchain, 256-bit hash. -/
def addressBits : Option Address → List Bool
  | none => [false, false]
  | some a => [true, false] ++ [false] ++ natToBits a.workchain 8 ++ natToBits a.hash 256

/-- Number of base-256 digits of `n` (0 for 0): the byte length the
variable-length coin encoding uses. -/
def byteSize (n : Nat) : Nat :=
  if n = 0 then 0 else byteSize (n / 256) + 1
termination_by n
decreasing_by
  rename_i h
  exact Nat.div_lt_self (Nat.pos_of_ne_zero h) (by omega)

/-- Bits written by `Builder.storeCoins`: a 4-bit byte-length header followed
by the amount in that many bytes. -/
def coinsBits (n : Nat) : List Bool :=
  natToBits (byteSize n) 4 ++ natToBits n (8 * byteSize n)

/-- Two's-complement bit pattern of a signed `w`-bit field
(`Builder.storeInt`). -/
def intToBits (i : Int) (w : Nat) : List Bool :=
  natToBits (i % (2 ^ w : Nat)).toNat w

/-- Builder state of the external cell builder: accumulated bits and child
references, finalized by `endCell`. -/
structure Builder where
  bits : List Bool
  refs : List Cell

/-- `beginCell()` — a fresh empty builder. -/
def beginCell : Builder := ⟨[], []⟩

/-- `Builder.storeUint(n, w)`. -/
def Builder.storeUint (b : Builder) (n w : Nat) : Builder :=
  ⟨b.bits ++ natToBits n w, b.refs⟩

/-- `Builder.storeInt(i, w)`. -/
def Builder.storeInt (b : Builder) (i : Int) (w : Nat) : Builder :=
  ⟨b.bits ++ intToBits i w, b.refs⟩

/-- `Builder.storeBit(x)`. -/
def Builder.storeBit (b : Builder) (x : Bool) : Builder :=
  ⟨b.bits ++ [x], b.refs⟩

/-- `Builder.storeCoins(n)`. -/
def Builder.storeCoins (b : Builder) (n : Nat) : Builder :=
  ⟨b.bits ++ coinsBits n, b.refs⟩

/-- `Builder.storeAddress(a)` (with `none` for the JS `null`). -/
def Builder.storeAddress (b : Builder) (a : Option Address) : Builder :=
  ⟨b.bits ++ addressBits a, b.refs⟩

/-- `Builder.storeRef(c)` — attach a finished cell as a child. -/
def Builder.storeRef (b : Builder) (c : Cell) : Builder :=
  ⟨b.bits, b.refs ++ [c]⟩

/-- The continuation cell `writeString` of the external library creates for
string bytes that exceed the current builder's bit budget: a fresh cell
takes up to `1023 / 8 = 127` whole bytes and chains any remainder into its
own single child. -/
def writeStringChild (s : List Nat) : Cell :=
  if s.length ≤ 1023 / 8 then Cell.mk (bytesToBits s) []
  else Cell.mk (bytesToBits (s.take (1023 / 8)))
    [writeStringChild (s.drop (1023 / 8))]
termination_by s.length
decreasing_by
  rename_i h
  have h8 : (1023 : Nat) / 8 = 127 := rfl
  rw [h8] at h
  simp only [List.length_drop, h8]
  omega

/-- `Builder.storeStringTail(s)` as the external library implements it: the
bytes of the string (no length header) are appended to the current cell only
as far as its remaining bit budget (`1023 - bits`, in whole bytes) allows;
any remainder is chained into a fresh child cell.  The string is represented
by its UTF-8 byte list. -/
def Builder.storeStringTail (b : Builder) (s : List Nat) : Builder :=
  if s.isEmpty then b
  else if s.length ≤ (1023 - b.bits.length) / 8 then
    ⟨b.bits ++ bytesToBits s, b.refs⟩
  else
    ⟨b.bits ++ bytesToBits (s.take ((1023 - b.bits.length) / 8)),
      b.refs ++ [writeStringChild (s.drop ((1023 - b.bits.length) / 8))]⟩

/-- `Builder.endCell()`. -/
def Builder.endCell (b : Builder) : Cell :=
  Cell.mk b.bits b.refs

/-- `Opcodes.Mint` from the source. -/
def Opcodes.Mint : Nat := 0x15

/-- `Opcodes.InternalTransfer` from the source. -/
def Opcodes.InternalTransfer : Nat := 0x178d4519

/-- `toNano(0.001)` — the fixed forwarding fee constant, in nanotons. -/
def toNanoFee : Nat := 1000000

/-- `mintBody(owner, jettonAmount, transferToJWallet, queryId?)` from the
source, builder call for builder call. -/
def mintBody (owner : Address) (jettonAmount : Nat) (transferToJWallet : Nat)
    (queryId : Option Nat) : Cell :=
  (((((beginCell.storeUint Opcodes.Mint 32).storeUint (queryId.getD 0) 64).storeAddress
      (some owner)).storeCoins transferToJWallet).storeRef
    (((((((beginCell.storeUint Opcodes.InternalTransfer 32).storeUint (queryId.getD 0)
        64).storeCoins jettonAmount).storeAddress none).storeAddress
        (some owner)).storeCoins toNanoFee).storeBit false).endCell).endCell

/-- `jettonOnChainMetadataSpec` from the source: the *own* properties of the
object literal, mapping the four recognized metadata keys to their
text-encoding discipline.  The JS lookup at line 116 additionally reaches
the literal's prototype chain — see `specLookupTruthy`. -/
def jettonOnChainMetadataSpec : String → Option String
  | "name" => some "utf8"
  | "description" => some "utf8"
  | "image" => some "ascii"
  | "symbol" => some "utf8"
  | _ => none

/-- Property names the object literal inherits from `Object.prototype`;
looking any of them up on `jettonOnChainMetadataSpec` yields a function or
object, which the line-116 falsy test treats as truthy. -/
def objectProtoKeys : List String :=
  ["constructor", "hasOwnProperty", "isPrototypeOf", "propertyIsEnumerable",
   "toLocaleString", "toString", "valueOf", "__defineGetter__",
   "__defineSetter__", "__lookupGetter__", "__lookupSetter__", "__proto__"]

/-- Truthiness of the JS lookup `jettonOnChainMetadataSpec[k]` in the check
`if (!jettonOnChainMetadataSpec[k]) throw ...` at line 116: own keys map to
non-empty strings (truthy); keys inherited from `Object.prototype` resolve
to truthy functions/objects; every other key gives `undefined` (falsy). -/
def specLookupTruthy (k : String) : Bool :=
  (jettonOnChainMetadataSpec k).isSome || objectProtoKeys.contains k

/-- `KEYLEN` from `buildTokenMetadataCell`. -/
def KEYLEN : Nat := 256

/-- The JS emptiness test `v === undefined || v === ""` on a metadata value
(values are represented by their encoded byte buffers, so the empty string
is the empty buffer). -/
def isEmptyVal : Option (List Nat) → Bool
  | none => true
  | some [] => true
  | some (_ :: _) => false

/-- `Dictionary.set` of the external library (a JS `Map`): overwrite in
place when the key is present, else append in insertion order. -/
def dictSet (d : List (List Nat × Cell)) (key : List Nat) (val : Cell) :
    List (List Nat × Cell) :=
  if d.any (fun e => e.1 == key) then
    d.map (fun e => if e.1 == key then (key, val) else e)
  else d ++ [(key, val)]

/-- The `Object.entries(data).forEach` loop of `buildTokenMetadataCell`,
threading the dictionary and parameterized by the external `sha256` digest
function (`hash`, an opaque bytes-valued function per the spec).  Each
entry: throw iff the line-116 lookup is falsy (`specLookupTruthy`), skip
empty values, then store the cell the snake loop actually finalizes
(`buildSnakeCellActual`) under the truncated digest of the key name.  (For a
prototype-chain key the encoding handed to `Buffer.from` is not a string and
Node falls back to utf8; values are modelled as their byte buffers, which
absorbs that fallback.) -/
def buildEntries (hash : String → List Nat) :
    List (String × Option (List Nat)) → List (List Nat × Cell) →
    Except String (List (List Nat × Cell))
  | [], d => .ok d
  | (k, v) :: rest, d =>
    if specLookupTruthy k = false then
      .error ("Unsupported onchain key: " ++ k)
    else if isEmptyVal v then
      buildEntries hash rest d
    else
      buildEntries hash rest
        (dictSet d ((hash k).take KEYLEN) (buildSnakeCellActual (v.getD [])))

/-- `buildTokenMetadataCell(data)` from the source: on success, the root
cell's own payload (the signed 8-bit on-chain content tag) paired with the
dictionary it wraps (the dictionary's bit-serialization is the external
library's `storeDict` and is injective in the dictionary, so the pair
determines the cell tree); a thrown `Error` is the `Except.error` case.
`data` is the entry list of the input object (keys unique, insertion
order). -/
def buildTokenMetadataCell (hash : String → List Nat)
    (data : List (String × Option (List Nat))) :
    Except String (List Bool × List (List Nat × Cell)) :=
  match buildEntries hash data [] with
  | .error e => .error e
  | .ok d => .ok (intToBits ONCHAIN_CONTENT_PFX 8, d)

/-- `JettonInitial` message payload (the `$$type` tag is the constructor). -/
structure JettonInitial where
  treasury : Address
  minting_info : Cell
  token_content : Cell

/-- `TokenBurnNotification` message payload. -/
structure TokenBurnNotification where
  query_id : Nat
  amount : Nat
  response_destination : Address

/-- `storeJettonInitial(src)` from the source. -/
def storeJettonInitial (src : JettonInitial) : Builder → Builder :=
  fun b =>
    (((b.storeUint 2412644301 32).storeAddress (some src.treasury)).storeRef
        src.minting_info).storeRef src.token_content

/-- `storeTokenBurnNotification(src)` from the source. -/
def storeTokenBurnNotification (src : TokenBurnNotification) : Builder → Builder :=
  fun b =>
    (((b.storeUint 2078119902 32).storeUint src.query_id 64).storeCoins
        src.amount).storeAddress (some src.response_destination)

/-- UTF-8 bytes of the reserved literal `"Mint"`. -/
def mintLit : List Nat := [0x4d, 0x69, 0x6e, 0x74]

/-- UTF-8 bytes of the reserved literal `"Owner Claim"`. -/
def ownerClaimLit : List Nat :=
  [0x4f, 0x77, 0x6e, 0x65, 0x72, 0x20, 0x43, 0x6c, 0x61, 0x69, 0x6d]

/-- The argument shapes `Jetton.send` can receive: the two structured
payloads, a string (as its UTF-8 bytes), or a value matching none of the
recognized shapes (possible because the call site is dynamically typed). -/
inductive SendMessage where
  | jettonInitial (m : JettonInitial)
  | str (s : List Nat)
  | tokenBurn (m : TokenBurnNotification)
  | invalid

/-- The body-selection sequence of `Jetton.send`, if for if: `body` starts
`null`, each shape test may overwrite it (the `"Owner Claim"`/`"Mint"`
literal tests re-encode exactly as the generic string branch does), and a
still-`null` body throws `Invalid message type`. -/
def sendBody (message : SendMessage) : Except String Cell :=
  let body0 : Option Cell := none
  let body1 : Option Cell :=
    match message with
    | .jettonInitial m => some (storeJettonInitial m beginCell).endCell
    | _ => body0
  let body2 : Option Cell :=
    match message with
    | .str s => some ((beginCell.storeUint 0 32).storeStringTail s).endCell
    | _ => body1
  let body3 : Option Cell :=
    match message with
    | .str s =>
      if s == ownerClaimLit then
        some ((beginCell.storeUint 0 32).storeStringTail s).endCell
      else body2
    | _ => body2
  let body4 : Option Cell :=
    match message with
    | .str s =>
      if s == mintLit then
        some ((beginCell.storeUint 0 32).storeStringTail s).endCell
      else body3
    | _ => body3
  let body5 : Option Cell :=
    match message with
    | .tokenBurn m => some (storeTokenBurnNotification m beginCell).endCell
    | _ => body4
  match body5 with
  | none => .error "Invalid message type"
  | some c => .ok c

/-- Bool-valued shape predicate for claim C2: `snakeShapeB first k c` holds
iff `c` starts a chain of exactly `k` cells in which every non-terminal cell
carries exactly `CELL_MAX_SIZE_BYTES` payload bytes (plus the 8-bit format
tag when it is the root, `first = true`) and exactly one child, and the
terminal cell is non-empty and child-less. -/
def snakeShapeB : Bool → Nat → Cell → Bool
  | _, 0, _ => false
  | _, 1, .mk bits refs => refs.isEmpty && !bits.isEmpty
  | first, n + 2, .mk bits refs =>
    (bits.length == 8 * CELL_MAX_SIZE_BYTES + (if first then 8 else 0)) &&
      match refs with
      | [c] => snakeShapeB false (n + 1) c
      | _ => false

mutual
/-- Every cell of a tree has at most `maxBits` payload bits and at most
`maxRefs` children (claim C9). -/
def allCellsLe (maxBits maxRefs : Nat) : Cell → Bool
  | .mk bits refs =>
    decide (bits.length ≤ maxBits) && decide (refs.length ≤ maxRefs) &&
      allCellsLeList maxBits maxRefs refs
/-- `allCellsLe` over a list of children. -/
def allCellsLeList (maxBits maxRefs : Nat) : List Cell → Bool
  | [] => true
  | c :: cs => allCellsLe maxBits maxRefs c && allCellsLeList maxBits maxRefs cs
end

theorem natToBits_length (n w : Nat) : (natToBits n w).length = w := by
  induction w generalizing n with
  | zero => rfl
  | succ w ih => simp [natToBits, ih]

theorem bitsToNat_append_bit (l : List Bool) (b : Bool) :
    bitsToNat (l ++ [b]) = 2 * bitsToNat l + (if b then 1 else 0) := by
  simp [bitsToNat, List.foldl_append]

theorem bitsToNat_natToBits (n w : Nat) : bitsToNat (natToBits n w) = n % 2 ^ w := by
  induction w generalizing n with
  | zero => simp [natToBits, bitsToNat, Nat.mod_one]
  | succ w ih =>
    rw [natToBits, bitsToNat_append_bit, ih]
    have hbit : (if (n % 2 == 1) = true then 1 else 0) = n % 2 := by
      have : n % 2 = 0 ∨ n % 2 = 1 := Nat.mod_two_eq_zero_or_one n
      rcases this with h | h <;> simp [h]
    rw [hbit]
    have hpow : 2 ^ (w + 1) = 2 * 2 ^ w := by ring
    rw [hpow, Nat.mod_mul]
    omega

theorem bytesToBits_cons (b : Nat) (v : List Nat) :
    bytesToBits (b :: v) = natToBits b 8 ++ bytesToBits v := by
  simp [bytesToBits]

theorem bytesToBits_append (u v : List Nat) :
    bytesToBits (u ++ v) = bytesToBits u ++ bytesToBits v := by
  simp [bytesToBits]

theorem bytesToBits_length (v : List Nat) : (bytesToBits v).length = 8 * v.length := by
  induction v with
  | nil => rfl
  | cons b rest ih =>
    rw [bytesToBits_cons]
    simp [ih, natToBits_length]
    ring

theorem bitsToBytes_bytesToBits (v : List Nat) (h : ∀ b ∈ v, b < 256) :
    bitsToBytes (bytesToBits v) = v := by
  induction v with
  | nil =>
    rw [show bytesToBits [] = [] from rfl, bitsToBytes]
    simp
  | cons b rest ih =>
    rw [bytesToBits_cons, bitsToBytes]
    have hlen : (natToBits b 8).length = 8 := natToBits_length b 8
    have hne : ¬((natToBits b 8 ++ bytesToBits rest).isEmpty = true) := by
      rw [List.isEmpty_iff]
      intro e
      have := congrArg List.length e
      simp [hlen] at this
    rw [if_neg hne]
    have ht := List.take_left (natToBits b 8) (bytesToBits rest)
    have hd := List.drop_left (natToBits b 8) (bytesToBits rest)
    rw [hlen] at ht hd
    rw [ht, hd, bitsToNat_natToBits]
    have hb : b % 2 ^ 8 = b := Nat.mod_eq_of_lt (h b (by simp))
    rw [hb, ih (fun x hx => h x (by simp [hx]))]

/-- C1 (code bug).  At the failing 130-byte input the tree the program
finalizes (`buildSnakeCellActual`) decodes — payload bits root-to-leaf, the
root's 1-byte tag stripped — to only the first 126 bytes: `storeRef` at
line 133 captured the child builder while still empty, so the snake
round-trip the claim (and spec §4.1/§8) states fails for every buffer longer
than one cell. -/
theorem snake_roundtrip_code_bug :
    bitsToBytes ((chainBits (buildSnakeCellActual (List.replicate 130 55))).drop 8)
        = List.replicate 126 55
    ∧ List.replicate 126 (55 : Nat) ≠ List.replicate 130 55 := by
  constructor
  · rw [buildSnakeCellActual, if_neg (by decide)]
    simp only [chainBits, List.append_nil]
    have hdl := List.drop_left (natToBits SNAKE_PFX 8)
        (bytesToBits ((List.replicate 130 55).take CELL_MAX_SIZE_BYTES))
    rw [natToBits_length] at hdl
    rw [hdl]
    have ht : (List.replicate 130 55).take CELL_MAX_SIZE_BYTES
        = List.replicate 126 (55 : Nat) := by decide
    rw [ht]
    exact bitsToBytes_bytesToBits _ (by decide)
  · decide

/-- C2 (code bug).  At the failing input of exactly `2 * CELL_MAX_SIZE_BYTES`
bytes the program finalizes a root whose single child is the empty snapshot
cell, so the actual tree is two cells with an *empty* terminal — not the k
chained full cells with a non-empty child-less terminal the claim describes,
as the shape predicate's rejection shows. -/
theorem snake_chunk_boundary_code_bug :
    (List.replicate 252 7).length = 2 * CELL_MAX_SIZE_BYTES
    ∧ buildSnakeCellActual (List.replicate 252 7)
        = Cell.mk (natToBits SNAKE_PFX 8 ++ bytesToBits (List.replicate 126 7))
            [Cell.mk [] []]
    ∧ snakeShapeB true 2 (buildSnakeCellActual (List.replicate 252 7)) = false := by
  refine ⟨by decide, ?_, by decide⟩
  rw [buildSnakeCellActual, if_neg (by decide)]
  have ht : (List.replicate 252 7).take CELL_MAX_SIZE_BYTES
      = List.replicate 126 (7 : Nat) := by decide
  rw [ht]

theorem allCellsLe_snakeTail (m r : Nat) (hm : 1008 ≤ m) (hr : 1 ≤ r) (n : Nat) :
    ∀ buf : List Nat, buf.length ≤ n → allCellsLe m r (snakeTail buf) = true := by
  have hC : CELL_MAX_SIZE_BYTES = 126 := rfl
  induction n with
  | zero =>
    intro buf h
    have he : buf = [] := List.length_eq_zero.mp (Nat.le_zero.mp h)
    subst he
    rw [snakeTail]
    simp only [List.drop_nil, List.isEmpty_nil, if_true]
    simp only [allCellsLe, allCellsLeList, Bool.and_eq_true, decide_eq_true_eq]
    refine ⟨⟨?_, ?_⟩, trivial⟩
    · rw [bytesToBits_length, List.length_take]
      simp
    · simp
  | succ n ih =>
    intro buf h
    rw [snakeTail]
    by_cases hd : (buf.drop CELL_MAX_SIZE_BYTES).isEmpty
    · rw [if_pos hd]
      simp only [allCellsLe, allCellsLeList, Bool.and_eq_true, decide_eq_true_eq]
      refine ⟨⟨?_, ?_⟩, trivial⟩
      · rw [bytesToBits_length, List.length_take]
        have hmin : CELL_MAX_SIZE_BYTES ⊓ buf.length ≤ CELL_MAX_SIZE_BYTES :=
          min_le_left _ _
        rw [hC] at hmin ⊢
        omega
      · simpa using Nat.zero_le r
    · rw [if_neg hd]
      rw [List.isEmpty_iff] at hd
      have hlt : 0 < (buf.drop CELL_MAX_SIZE_BYTES).length := List.length_pos.mpr hd
      have hrec : (buf.drop CELL_MAX_SIZE_BYTES).length ≤ n := by
        simp only [List.length_drop] at *
        rw [hC] at *
        omega
      simp only [allCellsLe, allCellsLeList, Bool.and_eq_true, decide_eq_true_eq]
      refine ⟨⟨?_, ?_⟩, ?_, trivial⟩
      · rw [bytesToBits_length, List.length_take]
        have hmin : CELL_MAX_SIZE_BYTES ⊓ buf.length ≤ CELL_MAX_SIZE_BYTES :=
          min_le_left _ _
        rw [hC] at hmin ⊢
        omega
      · simpa using hr
      · exact ih _ hrec

theorem allCellsLe_buildSnakeCell (m r : Nat) (hm : 1016 ≤ m) (hr : 1 ≤ r)
    (v : List Nat) : allCellsLe m r (buildSnakeCell v) = true := by
  have hC : CELL_MAX_SIZE_BYTES = 126 := rfl
  rw [buildSnakeCell]
  by_cases hd : (v.drop CELL_MAX_SIZE_BYTES).isEmpty
  · rw [if_pos hd]
    simp only [allCellsLe, allCellsLeList, Bool.and_eq_true, decide_eq_true_eq]
    refine ⟨⟨?_, ?_⟩, trivial⟩
    · rw [List.length_append, natToBits_length, bytesToBits_length, List.length_take]
      have hmin : CELL_MAX_SIZE_BYTES ⊓ v.length ≤ CELL_MAX_SIZE_BYTES :=
        min_le_left _ _
      rw [hC] at hmin ⊢
      omega
    · simpa using Nat.zero_le r
  · rw [if_neg hd]
    have htail := allCellsLe_snakeTail m r (by omega) hr
        (v.drop CELL_MAX_SIZE_BYTES).length (v.drop CELL_MAX_SIZE_BYTES) le_rfl
    simp only [allCellsLe, allCellsLeList, Bool.and_eq_true, decide_eq_true_eq]
    refine ⟨⟨?_, ?_⟩, ?_, trivial⟩
    · rw [List.length_append, natToBits_length, bytesToBits_length, List.length_take]
      have hmin : CELL_MAX_SIZE_BYTES ⊓ v.length ≤ CELL_MAX_SIZE_BYTES :=
        min_le_left _ _
      rw [hC] at hmin ⊢
      omega
    · simpa using hr
    · exact htail

/-- C9.  Implicit builder-capacity safety: every cell of the chain the snake
loop of `buildTokenMetadataCell` finalizes has at most `8 + 126*8 = 1016`
payload bits and at most one child, hence stays within the 1023-bit /
4-reference cell limits, so the builder’s overflow branch is unreachable. -/
theorem snake_cells_within_limits (v : List Nat) :
    allCellsLe 1016 1 (buildSnakeCell v) = true
    ∧ allCellsLe 1023 4 (buildSnakeCell v) = true :=
  ⟨allCellsLe_buildSnakeCell 1016 1 le_rfl le_rfl v,
    allCellsLe_buildSnakeCell 1023 4 (by omega) (by omega) v⟩

/-- C3.  MintRequest frame layout: `mintBody` yields opcode `0x15` (32 bits),
queryId (64 bits, `0` when absent), the owner address, the transfer fee as a
coin amount, and exactly one child holding the InternalTransfer sub-frame:
opcode `0x178d4519`, queryId, jetton amount, the no-address sentinel, the
owner address, the constant `0.001` native-unit fee, and one trailing `0`
bit. -/
theorem mintBody_layout (A : Address) (j t : Nat) (q : Option Nat) :
    (mintBody A j t q).bits
        = natToBits 0x15 32 ++ natToBits (q.getD 0) 64 ++ addressBits (some A)
          ++ coinsBits t
    ∧ (mintBody A j t q).refs
        = [Cell.mk (natToBits 0x178d4519 32 ++ natToBits (q.getD 0) 64 ++ coinsBits j
          ++ addressBits none ++ addressBits (some A) ++ coinsBits 1000000 ++ [false]) []] := by
  constructor <;>
    simp [mintBody, beginCell, Builder.storeUint, Builder.storeCoins, Builder.storeAddress,
      Builder.storeBit, Builder.storeRef, Builder.endCell, Cell.bits, Cell.refs,
      Opcodes.Mint, Opcodes.InternalTransfer, toNanoFee]

theorem buildEntries_error (hash : String → List Nat) :
    ∀ (l : List (String × Option (List Nat))) (d0 : List (List Nat × Cell)),
      (∃ kv ∈ l, specLookupTruthy kv.1 = false) →
      ∃ k, specLookupTruthy k = false
        ∧ buildEntries hash l d0 = .error ("Unsupported onchain key: " ++ k) := by
  intro l
  induction l with
  | nil =>
    intro d0 h
    rcases h with ⟨kv, hm, _⟩
    cases hm
  | cons kv rest ih =>
    intro d0 h
    obtain ⟨k, v⟩ := kv
    by_cases hk : specLookupTruthy k = false
    · refine ⟨k, hk, ?_⟩
      rw [buildEntries, if_pos hk]
    · have hrest : ∃ kv2 ∈ rest, specLookupTruthy kv2.1 = false := by
        rcases h with ⟨kv2, hm, hfalse⟩
        rcases List.mem_cons.mp hm with he | hm2
        · exfalso
          apply hk
          rw [he] at hfalse
          exact hfalse
        · exact ⟨kv2, hm2, hfalse⟩
      rw [buildEntries, if_neg hk]
      by_cases hv : isEmptyVal v
      · rw [if_pos hv]
        exact ih _ hrest
      · rw [if_neg hv]
        exact ih _ hrest

/-- A fixed stand-in digest function for concrete witnesses (the real
`sha256` is an external primitive the spec leaves opaque). -/
def zeroHash : String → List Nat := fun _ => List.replicate 32 0

/-- Counterexample to C4 as stated: the JS lookup at line 116 consults the
object literal's prototype chain, so the non-enumerated key `"constructor"`
is truthy, passes the check, and the build returns a cell — with the entry
inserted — instead of throwing. -/
theorem unsupported_key_rejected_cex :
    jettonOnChainMetadataSpec "constructor" = none
    ∧ buildTokenMetadataCell zeroHash [("constructor", (some [120] : Option (List Nat)))]
        = .ok (intToBits ONCHAIN_CONTENT_PFX 8,
            [((zeroHash "constructor").take KEYLEN, buildSnakeCellActual [120])]) :=
  ⟨rfl, rfl⟩

/-- C4 (amended).  Rejection applies to every key whose line-116 lookup is
falsy: an entry list containing a key that is neither in
{name, description, image, symbol} nor inherited from `Object.prototype`
makes `buildTokenMetadataCell` throw the unsupported-key error, and no cell
(hence no partial dictionary) is returned. -/
theorem unsupported_nonproto_key_rejected (hash : String → List Nat)
    (data : List (String × Option (List Nat)))
    (h : ∃ kv ∈ data, specLookupTruthy kv.1 = false) :
    ∃ k, specLookupTruthy k = false
      ∧ buildTokenMetadataCell hash data = .error ("Unsupported onchain key: " ++ k) := by
  obtain ⟨k, hk, herr⟩ := buildEntries_error hash data [] h
  exact ⟨k, hk, by simp [buildTokenMetadataCell, herr]⟩

/-- Witness for amended C4: the unrecognized, non-prototype key `"foo"`
aborts the build. -/
theorem unsupported_nonproto_key_rejected_witness :
    (∃ kv ∈ [("foo", (some [1] : Option (List Nat)))], specLookupTruthy kv.1 = false)
    ∧ ∃ k, specLookupTruthy k = false
        ∧ buildTokenMetadataCell zeroHash [("foo", (some [1] : Option (List Nat)))]
            = .error ("Unsupported onchain key: " ++ k) :=
  ⟨by decide, unsupported_nonproto_key_rejected zeroHash
    [("foo", (some [1] : Option (List Nat)))] (by decide)⟩

/-- Counterexample to C5 as stated: the key check precedes the empty-value
skip, so the unsupported key `"foo"` with an absent value already throws. -/
theorem unsupported_key_empty_value_cex :
    buildTokenMetadataCell zeroHash [("foo", (none : Option (List Nat)))]
      = .error "Unsupported onchain key: foo" := rfl

/-- C5 (amended).  The key check precedes the empty-value skip: a pair
whose key fails the line-116 lookup (outside the enumeration and not an
`Object.prototype` member) causes the build to fail even when its value is
absent or the empty string; only keys passing the lookup have their empty
values skipped. -/
theorem unsupported_key_checked_even_if_empty (hash : String → List Nat)
    (data : List (String × Option (List Nat))) (k : String) (v : Option (List Nat))
    (hmem : (k, v) ∈ data) (hbad : specLookupTruthy k = false)
    (hempty : v = none ∨ v = some []) :
    ∃ e, buildTokenMetadataCell hash data = .error e := by
  obtain ⟨k2, _, herr⟩ := buildEntries_error hash data [] ⟨(k, v), hmem, hbad⟩
  refine ⟨"Unsupported onchain key: " ++ k2, ?_⟩
  simp [buildTokenMetadataCell, herr]

/-- Witness for amended C5 at the absent-valued unsupported key `"foo"`. -/
theorem unsupported_key_checked_even_if_empty_witness :
    ("foo", (none : Option (List Nat))) ∈ [("foo", (none : Option (List Nat)))]
    ∧ specLookupTruthy "foo" = false
    ∧ ∃ e, buildTokenMetadataCell zeroHash [("foo", (none : Option (List Nat)))] = .error e :=
  ⟨by decide, by decide,
    unsupported_key_checked_even_if_empty zeroHash [("foo", (none : Option (List Nat)))]
      "foo" none (by decide) (by decide) (Or.inl rfl)⟩

/-- The entries of `data` whose value survives the empty-value skip. -/
def nonEmptyEntries (data : List (String × Option (List Nat))) :
    List (String × Option (List Nat)) :=
  data.filter (fun kv => !isEmptyVal kv.2)

/-- The dictionary `buildEntries` produces when every key passes the lookup:
one entry per non-empty value, keyed by the truncated digest of the key
name, holding the cell the snake loop actually finalizes for the value, in
input order. -/
def dictOf (hash : String → List Nat) (data : List (String × Option (List Nat))) :
    List (List Nat × Cell) :=
  (nonEmptyEntries data).map
    (fun kv => ((hash kv.1).take KEYLEN, buildSnakeCellActual (kv.2.getD [])))

theorem dictSet_fresh (d : List (List Nat × Cell)) (key : List Nat) (val : Cell)
    (h : ∀ e ∈ d, e.1 ≠ key) : dictSet d key val = d ++ [(key, val)] := by
  rw [dictSet, if_neg]
  intro hc
  rw [List.any_eq_true] at hc
  obtain ⟨e, he, hbeq⟩ := hc
  exact h e he (by simpa using hbeq)

theorem buildEntries_ok (hash : String → List Nat) :
    ∀ (l : List (String × Option (List Nat))) (d0 : List (List Nat × Cell)),
      (∀ kv ∈ l, (jettonOnChainMetadataSpec kv.1).isSome) →
      (∀ kv ∈ l, ∀ e ∈ d0, e.1 ≠ (hash kv.1).take KEYLEN) →
      (l.map (fun kv => (hash kv.1).take KEYLEN)).Nodup →
      buildEntries hash l d0 = .ok (d0 ++ dictOf hash l) := by
  intro l
  induction l with
  | nil =>
    intro d0 _ _ _
    simp [buildEntries, dictOf, nonEmptyEntries]
  | cons kv rest ih =>
    intro d0 hrec hfresh hnodup
    obtain ⟨k, v⟩ := kv
    have hk : ¬(specLookupTruthy k = false) := by
      have hs := hrec (k, v) (by simp)
      simp at hs
      simp [specLookupTruthy, hs]
    have hnodup2 : ((k, v) :: rest).map (fun kv => (hash kv.1).take KEYLEN)
        = (hash k).take KEYLEN :: rest.map (fun kv => (hash kv.1).take KEYLEN) := by
      simp
    rw [hnodup2] at hnodup
    have hnotmem := (List.nodup_cons.mp hnodup).1
    have hnodup3 := (List.nodup_cons.mp hnodup).2
    rw [buildEntries, if_neg hk]
    by_cases hv : isEmptyVal v
    · rw [if_pos hv]
      rw [ih d0 (fun kv2 h2 => hrec kv2 (by simp [h2]))
          (fun kv2 h2 => hfresh kv2 (by simp [h2])) hnodup3]
      simp [dictOf, nonEmptyEntries, hv]
    · rw [if_neg hv]
      have hfresh0 : ∀ e ∈ d0, e.1 ≠ (hash k).take KEYLEN :=
        fun e he => hfresh (k, v) (by simp) e he
      rw [dictSet_fresh _ _ _ hfresh0]
      rw [ih (d0 ++ [((hash k).take KEYLEN, buildSnakeCellActual (v.getD []))])
          (fun kv2 h2 => hrec kv2 (by simp [h2])) ?_ hnodup3]
      · simp [dictOf, nonEmptyEntries, hv, List.append_assoc]
      · intro kv2 h2 e he
        rcases List.mem_append.mp he with hd0 | hsing
        · exact hfresh kv2 (by simp [h2]) e hd0
        · have he2 : e = ((hash k).take KEYLEN, buildSnakeCellActual (v.getD [])) :=
            List.mem_singleton.mp hsing
          subst he2
          intro heq
          apply hnotmem
          have heq2 : List.take KEYLEN (hash k) = List.take KEYLEN (hash kv2.1) := heq
          rw [heq2]
          exact List.mem_map_of_mem _ h2

/-- C6.  Omission: with recognized keys and collision-free truncated digests,
`buildTokenMetadataCell` succeeds; its dictionary keys are exactly the
truncated digests of the keys with non-empty values in input order, so an
empty/absent value never contributes an entry and a non-empty value always
contributes an entry holding the cell the loop actually finalizes for it
(hence the scenario
{name: "MyJetton", symbol: "JET1", description: "", image: undefined}
yields exactly the two entries for name and symbol). -/
theorem metadata_omission (hash : String → List Nat)
    (data : List (String × Option (List Nat)))
    (hrec : ∀ kv ∈ data, (jettonOnChainMetadataSpec kv.1).isSome)
    (hnodup : (data.map (fun kv => (hash kv.1).take KEYLEN)).Nodup) :
    ∃ d, buildTokenMetadataCell hash data = .ok (intToBits ONCHAIN_CONTENT_PFX 8, d)
      ∧ d.map Prod.fst = (nonEmptyEntries data).map (fun kv => (hash kv.1).take KEYLEN)
      ∧ (∀ k v, (k, v) ∈ data → isEmptyVal v = true →
          ∀ c, ((hash k).take KEYLEN, c) ∉ d)
      ∧ (∀ k bs, (k, some bs) ∈ data → bs ≠ [] →
          ((hash k).take KEYLEN, buildSnakeCellActual bs) ∈ d) := by
  refine ⟨dictOf hash data, ?_, ?_, ?_, ?_⟩
  · rw [buildTokenMetadataCell, buildEntries_ok hash data [] hrec (by simp) hnodup]
    simp
  · simp only [dictOf, List.map_map]
    rfl
  · intro k v hmem hempty c hc
    obtain ⟨kv2, hkv2, heq⟩ := List.mem_map.mp hc
    have h1 : kv2 ∈ data := List.mem_of_mem_filter hkv2
    have hkeq : (hash kv2.1).take KEYLEN = (hash k).take KEYLEN :=
      congrArg Prod.fst heq
    have hinj := List.inj_on_of_nodup_map hnodup h1 hmem hkeq
    have hpred := (List.mem_filter.mp hkv2).2
    rw [hinj] at hpred
    simp [hempty] at hpred
  · intro k bs hmem hne
    have hpred : (!isEmptyVal (some bs)) = true := by
      cases bs with
      | nil => exact absurd rfl hne
      | cons b rest => simp [isEmptyVal]
    have hfil : (k, some bs) ∈ nonEmptyEntries data :=
      List.mem_filter.mpr ⟨hmem, hpred⟩
    exact List.mem_map_of_mem
      (fun kv => ((hash kv.1).take KEYLEN, buildSnakeCellActual (kv.2.getD []))) hfil

/-- The concrete digest used in the C6 witness, distinguishing the four
recognized keys (the real sha256 is external and collision-free on them). -/
def demoHash : String → List Nat
  | "name" => List.replicate 32 1
  | "symbol" => List.replicate 32 2
  | "description" => List.replicate 32 3
  | "image" => List.replicate 32 4
  | _ => List.replicate 32 0

/-- The scenario mapping from the spec:
{name: "MyJetton", symbol: "JET1", description: "", image: undefined},
values as UTF-8 bytes. -/
def scenarioData : List (String × Option (List Nat)) :=
  [("name", some [0x4d, 0x79, 0x4a, 0x65, 0x74, 0x74, 0x6f, 0x6e]),
   ("symbol", some [0x4a, 0x45, 0x54, 0x31]),
   ("description", some []),
   ("image", none)]

/-- Witness for C6 at the spec's scenario mapping. -/
theorem metadata_omission_witness :
    (∀ kv ∈ scenarioData, (jettonOnChainMetadataSpec kv.1).isSome)
    ∧ (scenarioData.map (fun kv => (demoHash kv.1).take KEYLEN)).Nodup
    ∧ ∃ d, buildTokenMetadataCell demoHash scenarioData
          = .ok (intToBits ONCHAIN_CONTENT_PFX 8, d)
        ∧ d.map Prod.fst
            = (nonEmptyEntries scenarioData).map (fun kv => (demoHash kv.1).take KEYLEN)
        ∧ (∀ k v, (k, v) ∈ scenarioData → isEmptyVal v = true →
            ∀ c, ((demoHash k).take KEYLEN, c) ∉ d)
        ∧ (∀ k bs, (k, some bs) ∈ scenarioData → bs ≠ [] →
            ((demoHash k).take KEYLEN, buildSnakeCellActual bs) ∈ d) :=
  ⟨by decide, by decide, metadata_omission demoHash scenarioData (by decide) (by decide)⟩

theorem sendBody_str (s : List Nat) :
    sendBody (.str s) = .ok (((beginCell.storeUint 0 32).storeStringTail s).endCell) := by
  simp [sendBody, ite_self]

/-- Counterexample to C7 as stated: a 124-byte string exceeds the 123 bytes
left after the 32-bit opcode, so the library chains the remainder into a
child cell — the body is not the flat child-less cell holding all of `s`
that the claim describes. -/
theorem send_text_dispatch_cex :
    sendBody (.str (List.replicate 124 65))
      ≠ .ok (Cell.mk (natToBits 0 32 ++ bytesToBits (List.replicate 124 65)) []) := by
  have hs : sendBody (.str (List.replicate 124 65))
      = .ok (Cell.mk (natToBits 0 32 ++ bytesToBits (List.replicate 123 65))
          [writeStringChild [65]]) := rfl
  rw [hs]
  intro h
  injection h with h2
  injection h2 with hb hr
  exact List.cons_ne_nil _ _ hr

/-- C7 (amended).  Every string whose byte length fits the 123 bytes left
after the 32-bit zero opcode is framed flat — 32 zero bits then its UTF-8
bytes, no length header, no children — including the reserved literals
`"Mint"` and `"Owner Claim"`, whose dedicated branches produce the identical
frame; longer strings have their tail chained into child cells by the
library; and a value matching no recognized shape makes `send` throw the
invalid-message error before any body exists. -/
theorem send_text_dispatch_amended :
    (∀ s : List Nat, s.length ≤ 123 →
        sendBody (.str s) = .ok (Cell.mk (natToBits 0 32 ++ bytesToBits s) []))
    ∧ sendBody (.str mintLit) = .ok (Cell.mk (natToBits 0 32 ++ bytesToBits mintLit) [])
    ∧ sendBody (.str ownerClaimLit)
        = .ok (Cell.mk (natToBits 0 32 ++ bytesToBits ownerClaimLit) [])
    ∧ sendBody .invalid = .error "Invalid message type" := by
  refine ⟨fun s hlen => ?_, ?_, ?_, ?_⟩
  · rw [sendBody_str, Builder.storeStringTail]
    by_cases he : s.isEmpty
    · rw [if_pos he]
      rw [List.isEmpty_iff] at he
      subst he
      simp [beginCell, Builder.storeUint, Builder.endCell, bytesToBits]
    · rw [if_neg he]
      have hb : ((beginCell.storeUint 0 32) : Builder).bits.length = 32 := by
        simp [beginCell, Builder.storeUint, natToBits_length]
      rw [hb]
      have h123 : (1023 - 32) / 8 = 123 := by norm_num
      rw [h123, if_pos hlen]
      simp [beginCell, Builder.storeUint, Builder.endCell]
  · rfl
  · rfl
  · rfl

/-- Witness for amended C7 at a short concrete string. -/
theorem send_text_dispatch_amended_witness :
    (List.replicate 3 97 : List Nat).length ≤ 123
    ∧ sendBody (.str (List.replicate 3 97))
        = .ok (Cell.mk (natToBits 0 32 ++ bytesToBits (List.replicate 3 97)) []) :=
  ⟨by decide, send_text_dispatch_amended.1 (List.replicate 3 97) (by decide)⟩

/-- C8.  Determinism: `buildTokenMetadataCell` is a pure function of the
digest function and the metadata entries — the model has no randomness or
state, so encoding the same mapping twice yields identical results. -/
theorem metadata_deterministic (hash : String → List Nat)
    (data : List (String × Option (List Nat))) :
    buildTokenMetadataCell hash data = buildTokenMetadataCell hash data := rfl

/-- C10.  Implicit empty-string acceptance: dispatching the empty string is
not rejected; the body is exactly 32 zero bits with no child references. -/
theorem send_empty_string_ok :
    sendBody (.str []) = .ok (Cell.mk (List.replicate 32 false) []) := rfl

end MinterContract
